import Mathlib

/-!
Verification of the low-level input layer of the espanso text expander.

The development shallowly embeds three source files:
* `src/src/engine.rs` — the matching-engine adapter (`Engine::on_match`);
* `src/src/context/linux.rs` — the Linux capture context callback
  (`keypress_callback`);
* `src/espanso-inject/src/lib.rs` — the injection option structs and the
  backend dispatcher (`get_injector`).

Strings are modelled as `List Char`; the Rust standard-library functions the
code calls (`str::lines`, `String::from_utf8_lossy`, `str::len`) are embedded
faithfully, including the handling of `\r\n` line endings, the dropping of a
final line terminator by `lines`, and the maximal-subpart replacement policy
of lossy UTF-8 decoding.
-/

namespace Espanso

/-! ### Engine adapter (`src/src/engine.rs`) -/

/-- One call issued by `Engine::on_match` on its `KeyboardSender`:
`deleteChars n` models `delete_string(n)`, `enter` models `send_enter()`,
`str s` models `send_string(s)`. -/
inductive SenderEvent where
  | deleteChars (n : Nat)
  | enter
  | str (s : List Char)
  deriving DecidableEq, Repr

/-- Splitting a char list at every newline character: `(splitNL s).1` is the
segment before the first newline, `(splitNL s).2` the remaining segments (one
per newline character in `s`). -/
def splitNL : List Char → List Char × List (List Char)
  | [] => ([], [])
  | c :: rest =>
    if c = '\n' then ([], (splitNL rest).1 :: (splitNL rest).2)
    else (c :: (splitNL rest).1, (splitNL rest).2)

/-- Model of Rust `str::split_terminator('\n')`: split at newline characters,
dropping one final empty segment (present exactly when the string is empty or
ends with a newline). -/
def splitTerminatorNL (s : List Char) : List (List Char) :=
  if ((splitNL s).1 :: (splitNL s).2).getLast? = some ([] : List Char) then
    ((splitNL s).1 :: (splitNL s).2).dropLast
  else
    (splitNL s).1 :: (splitNL s).2

/-- Model of stripping one trailing carriage return from a line, as Rust
`str::lines` does to support `\r\n` line endings. -/
def stripTrailingCR (l : List Char) : List Char :=
  if l.getLast? = some '\x0d' then l.dropLast else l

/-- Model of Rust `str::lines()`: split at `\n` terminators (a final line
terminator is optional and produces no extra empty line) and strip one
trailing `\r` from each line. -/
def rustLines (s : List Char) : List (List Char) :=
  (splitTerminatorNL s).map stripTrailingCR

/-- Model of Rust `str::len()`: the length in bytes of the UTF-8 encoding. -/
def utf8Len (s : List Char) : Nat :=
  (s.map Char.utf8Size).sum

/-- The sender calls issued by the `for (i, split) in splits.enumerate()` loop
of `Engine::on_match`: the first segment is sent directly, every following
segment is preceded by one Enter press. -/
def replaceEvents : List (List Char) → List SenderEvent
  | [] => []
  | s :: rest => SenderEvent.str s :: rest.flatMap (fun t => [SenderEvent.enter, SenderEvent.str t])

/-- Embedding of `Engine::on_match` (src/src/engine.rs): first
`delete_string(m.trigger.len() as i32)` — note Rust `len()` is the UTF-8 byte
length — then the replacement, split by `lines()`, with one `send_enter()`
between consecutive segments. -/
def on_match (trigger replace : List Char) : List SenderEvent :=
  SenderEvent.deleteChars (utf8Len trigger) :: replaceEvents (rustLines replace)

/-- Number of Enter presses in a sender trace. -/
def enterCount (trace : List SenderEvent) : Nat :=
  trace.count SenderEvent.enter

/-- Number of deletion events in a sender trace; `delete_string(n)` issues `n`
character deletions. -/
def deletionCount (trace : List SenderEvent) : Nat :=
  (trace.map fun e => match e with | SenderEvent.deleteChars n => n | _ => 0).sum

/-- Number of newline characters in a text; `\r\n` contains exactly one `\n`,
so this also counts `\r\n` line breaks once. -/
def newlineCount (s : List Char) : Nat :=
  s.count '\n'

/-! ### Capture context (`src/src/context/linux.rs`)

`keypress_callback` receives a raw byte buffer, an `is_modifier` flag and a
native key code.  For a character event it decodes the buffer with
`String::from_utf8_lossy` and sends the first character; for a modifier event
it maps a fixed set of native key codes to logical modifiers.  The embedding
returns the list of events sent on the channel. -/

/-- Logical modifiers, as used in `src/src/context/linux.rs`. -/
inductive KeyModifier where
  | META
  | SHIFT
  | ALT
  | CTRL
  | BACKSPACE
  deriving DecidableEq, Repr

/-- Key events produced by the capture context. -/
inductive KeyEvent where
  | Char (c : Char)
  | Modifier (m : KeyModifier)
  deriving DecidableEq, Repr

/-- Events transported on the capture channel. -/
inductive Event where
  | Key (e : KeyEvent)
  deriving DecidableEq, Repr

/-- The Unicode replacement character U+FFFD substituted by lossy UTF-8
decoding for invalid byte sequences. -/
def repl : Char := Char.ofNat 0xFFFD

/-- State of the incremental UTF-8 decoder: number of continuation bytes still
needed, accumulated code point bits, and the allowed range for the next byte
(the range differs from 0x80–0xBF only directly after the lead bytes 0xE0,
0xED, 0xF0 and 0xF4). -/
structure Utf8State where
  needed : Nat
  codepoint : Nat
  lower : Nat
  upper : Nat
  deriving DecidableEq, Repr

/-- Result of handling one byte in the ground state of the decoder. -/
inductive LeadResult where
  | ascii (c : Char)
  | start (st : Utf8State)
  | invalid
  deriving DecidableEq, Repr

/-- Ground-state handling of a byte by the UTF-8 decoder: ASCII bytes decode
directly, lead bytes open a multi-byte sequence with the constrained range for
the following byte, everything else (stray continuation bytes, overlong leads
0xC0/0xC1, and bytes above 0xF4) is invalid. -/
def leadByte (b : Nat) : LeadResult :=
  if b < 0x80 then LeadResult.ascii (Char.ofNat b)
  else if b < 0xC2 then LeadResult.invalid
  else if b ≤ 0xDF then LeadResult.start ⟨1, b - 0xC0, 0x80, 0xBF⟩
  else if b ≤ 0xEF then
    LeadResult.start
      ⟨2, b - 0xE0, if b = 0xE0 then 0xA0 else 0x80, if b = 0xED then 0x9F else 0xBF⟩
  else if b ≤ 0xF4 then
    LeadResult.start
      ⟨3, b - 0xF0, if b = 0xF0 then 0x90 else 0x80, if b = 0xF4 then 0x8F else 0xBF⟩
  else LeadResult.invalid

/-- The streaming lossy UTF-8 decoder: equivalent to Rust
`String::from_utf8_lossy`, substituting one replacement character per maximal
invalid subsequence (an out-of-range byte aborts the current sequence and is
reprocessed as a fresh lead byte; a truncated sequence at the end of the input
yields a single replacement character). -/
def decodeLoop : Option Utf8State → List Nat → List Char
  | none, [] => []
  | some _, [] => [repl]
  | none, b :: rest =>
    (match leadByte b with
      | LeadResult.ascii c => c :: decodeLoop none rest
      | LeadResult.start st => decodeLoop (some st) rest
      | LeadResult.invalid => repl :: decodeLoop none rest)
  | some st, b :: rest =>
    if st.lower ≤ b ∧ b ≤ st.upper then
      if st.needed = 1 then
        Char.ofNat (st.codepoint * 0x40 + (b - 0x80)) :: decodeLoop none rest
      else
        decodeLoop (some ⟨st.needed - 1, st.codepoint * 0x40 + (b - 0x80), 0x80, 0xBF⟩) rest
    else
      repl ::
        (match leadByte b with
          | LeadResult.ascii c => c :: decodeLoop none rest
          | LeadResult.start st2 => decodeLoop (some st2) rest
          | LeadResult.invalid => repl :: decodeLoop none rest)

/-- Model of Rust `String::from_utf8_lossy` on a byte buffer. -/
def utf8DecodeLossy (l : List Nat) : List Char :=
  decodeLoop none l

/-- The fixed native-code-to-modifier mapping of `keypress_callback`. -/
def modifierOfCode (key_code : Int) : Option KeyModifier :=
  if key_code = 133 then some KeyModifier.META
  else if key_code = 50 then some KeyModifier.SHIFT
  else if key_code = 64 then some KeyModifier.ALT
  else if key_code = 37 then some KeyModifier.CTRL
  else if key_code = 22 then some KeyModifier.BACKSPACE
  else none

/-- Embedding of `keypress_callback` (src/src/context/linux.rs): the list of
events sent on the context channel for one native key event. -/
def keypress_callback (raw_buffer : List Nat) (is_modifier : Int) (key_code : Int) :
    List Event :=
  if is_modifier = 0 then
    (match (utf8DecodeLossy raw_buffer).head? with
      | some c => [Event.Key (KeyEvent.Char c)]
      | none => [])
  else
    (match modifierOfCode key_code with
      | some m => [Event.Key (KeyEvent.Modifier m)]
      | none => [])

/-! ### Injection library (`src/espanso-inject/src/lib.rs`) -/

/-- The operating systems distinguished by the `cfg` attributes of the
injection library; `other` stands for any target matching none of them (there
no `get_injector` function exists and `InjectionOptions::default` panics,
both modelled as errors). -/
inductive OS where
  | windows
  | macos
  | linux
  | other
  deriving DecidableEq, Repr

/-- The concrete injector backends. -/
inductive Backend where
  | win32
  | mac
  | x11
  | evdev
  deriving DecidableEq, Repr

/-- `InjectionOptions`: delay between injected events, and whether to use the
slow `XSendEvent` path instead of the fast `XTestFakeKeyEvent` path (X11
only). -/
structure InjectionOptions where
  delay : Int
  disable_fast_inject : Bool
  deriving DecidableEq, Repr

/-- The OS-specific default delay computed by `InjectionOptions::default`:
0 on Windows, 2 ms on macOS, 0 on Linux, and `panic!("unsupported OS")` on
every other target, modelled as an error. -/
def default_delay : OS → Except String Int
  | OS.windows => Except.ok 0
  | OS.macos => Except.ok 2
  | OS.linux => Except.ok 0
  | OS.other => Except.error "unsupported OS"

/-- `InjectionOptions::default` for a given target OS: the OS-specific delay
and `disable_fast_inject = false`. -/
def injectionOptionsDefault (os : OS) : Except String InjectionOptions :=
  (default_delay os).map (fun d => InjectionOptions.mk d false)

/-- `KeyboardConfig`: the xkb rules/model/layout/variant/options keyboard
layout descriptor. -/
structure KeyboardConfig where
  rules : Option String
  model : Option String
  layout : Option String
  variant : Option String
  options : Option String
  deriving DecidableEq, Repr

/-- `InjectorCreationOptions`: construction-time configuration of the
dispatcher and of the EVDEV resolver. -/
structure InjectorCreationOptions where
  use_evdev : Bool
  evdev_modifiers : Option (List Nat)
  evdev_max_modifier_combination_len : Option Nat
  evdev_keyboard_rmlvo : Option KeyboardConfig

/-- `InjectorCreationOptions::default`. -/
def injectorCreationOptionsDefault : InjectorCreationOptions :=
  InjectorCreationOptions.mk false none none none

/-- Embedding of the dispatcher `get_injector`.  The `cfg`-selected variants
of the source are merged into one function over the target `OS` and the
`wayland` feature flag; `evdevOk` and `x11Ok` say whether the fallible native
constructors `EVDEVInjector::new` and `X11Injector::new` succeed (the Windows
and macOS constructors are infallible in the source, and a failed `?` is
propagated to the caller).  On a target OS matching no `cfg` no
`get_injector` exists, so construction is impossible: modelled as an
error. -/
def get_injector (os : OS) (wayland : Bool) (opts : InjectorCreationOptions)
    (evdevOk x11Ok : Bool) : Except String Backend :=
  match os with
  | OS.windows => Except.ok Backend.win32
  | OS.macos => Except.ok Backend.mac
  | OS.linux =>
    if wayland then
      if evdevOk then Except.ok Backend.evdev else Except.error "EVDEVInjector failed"
    else if opts.use_evdev then
      if evdevOk then Except.ok Backend.evdev else Except.error "EVDEVInjector failed"
    else
      if x11Ok then Except.ok Backend.x11 else Except.error "X11Injector failed"
  | OS.other => Except.error "unsupported platform"

/-- Whether an `Except` result is an error. -/
def exceptIsError {α : Type} (r : Except String α) : Bool :=
  match r with
  | Except.error _ => true
  | Except.ok _ => false

/-! ### Spec-modelled parts of the injection library

The backend implementations (`win32.rs`, `mac.rs`, `x11.rs`, `evdev.rs`) and
the `keys` module of espanso-inject are not part of the available source;
only the `Injector` trait declaration and the option structs are.  The
definitions below are therefore modelled from the specification. -/

/-- Modelled from the spec: the logical `Key` vocabulary (the `keys` module of
espanso-inject is missing from the source).  Spec §3: letters/digits,
navigation and function keys, modifiers, Enter, Backspace. -/
inductive Key where
  | KeyChar (c : Char)
  | Ctrl
  | Shift
  | Alt
  | Meta
  | Enter
  | Backspace
  | F (n : Nat)
  deriving DecidableEq, Repr

/-- A synthetic key event: a press or a release of a logical key. -/
inductive KeyAction where
  | press (k : Key)
  | release (k : Key)
  deriving DecidableEq, Repr

/-- Modelled from the spec: the backend implementations of
`Injector::send_key_combination` are missing from the source (only the trait
declaration in `espanso-inject/src/lib.rs` is present).  Spec §4.1: presses
every key in `keys` in list order without releasing, then releases them in
exact reverse order. -/
def send_key_combination (keys : List Key) : List KeyAction :=
  keys.map KeyAction.press ++ (keys.reverse).map KeyAction.release

/-- Modelled from the spec: the maximum simultaneous-modifier combination
length probed by the EVDEV resolver — the caller-supplied
`evdev_max_modifier_combination_len`, or a small default (2) when
unspecified (spec §4.3 step 3). -/
def resolveMaxLen (opt : Option Nat) : Nat :=
  opt.getD 2

/-- Modelled from the spec: the probe enumeration of the EVDEV resolver
(`espanso-inject/src/evdev.rs` is missing from the source).  Spec §4.3 step 4:
every physical key crossed with every modifier subset of size 0..max_len, in
ascending subset size, then key code, then modifier order. -/
def probeList (keyCodes mods : List Nat) (maxLen : Nat) : List (Nat × List Nat) :=
  (List.range (maxLen + 1)).flatMap fun i =>
    keyCodes.flatMap fun k =>
      (List.sublistsLen i mods).map fun combo => (k, combo)

/-- Modelled from the spec: one step of the resolver's table construction —
`(sym, key, combo)` is recorded only if the symbol the layout produces for
`(key, combo)` has not been recorded yet (spec §4.3 step 5: the first-found
mapping under the deterministic probe order wins). -/
def tableStep (layout : Nat → List Nat → Option Nat)
    (table : List (Nat × Nat × List Nat)) (kc : Nat × List Nat) :
    List (Nat × Nat × List Nat) :=
  match layout kc.1 kc.2 with
  | some sym =>
    if (table.find? fun e => e.1 == sym).isSome then table
    else table ++ [(sym, kc.1, kc.2)]
  | none => table

/-- Modelled from the spec: the `KeysymResolutionTable` built once at EVDEV
backend construction, mapping each symbol to the first (physical key,
modifier subset) pair producing it under the loaded layout. -/
def buildTable (layout : Nat → List Nat → Option Nat) (keyCodes mods : List Nat)
    (maxLen : Nat) : List (Nat × Nat × List Nat) :=
  (probeList keyCodes mods maxLen).foldl (tableStep layout) []

/-! ### Lemmas about the engine embedding -/

theorem splitNL_snd_length (s : List Char) : (splitNL s).2.length = s.count '\n' := by
  induction s with
  | nil => simp [splitNL]
  | cons c rest ih =>
    by_cases hc : c = '\n'
    · subst hc
      simp [splitNL, ih]
    · simp [splitNL, hc, ih, List.count_cons_of_ne (fun h => hc h.symm)]

theorem splitNL_no_newline (s : List Char) :
    '\n' ∉ (splitNL s).1 ∧ ∀ l ∈ (splitNL s).2, '\n' ∉ l := by
  induction s with
  | nil => simp [splitNL]
  | cons c rest ih =>
    by_cases hc : c = '\n'
    · subst hc
      constructor
      · simp [splitNL]
      · intro l hl
        simp only [splitNL, if_pos rfl] at hl
        rcases List.mem_cons.mp hl with h | h
        · exact h ▸ ih.1
        · exact ih.2 l h
    · constructor
      · intro hm
        simp only [splitNL, if_neg hc] at hm
        rcases List.mem_cons.mp hm with h | h
        · exact hc h.symm
        · exact ih.1 h
      · intro l hl
        simp only [splitNL, if_neg hc] at hl
        exact ih.2 l hl

theorem splitNL_getLast?_eq_nil (s : List Char) :
    ((splitNL s).1 :: (splitNL s).2).getLast? = some ([] : List Char) ↔
      (s = [] ∨ s.getLast? = some '\n') := by
  induction s with
  | nil => simp [splitNL]
  | cons c rest ih =>
    by_cases hc : c = '\n'
    · subst hc
      have hsp : splitNL ('\n' :: rest) = ([], (splitNL rest).1 :: (splitNL rest).2) := by
        simp [splitNL]
      rw [hsp]
      show ([] :: (splitNL rest).1 :: (splitNL rest).2).getLast? = some ([] : List Char) ↔ _
      rw [List.getLast?_cons_cons]
      rw [ih]
      constructor
      · rintro (h | h)
        · subst h
          right
          rfl
        · right
          cases rest with
          | nil => simp at h
          | cons d t => rw [List.getLast?_cons_cons]; exact h
      · rintro (h | h)
        · cases h
        · cases rest with
          | nil => left; rfl
          | cons d t =>
            right
            rw [List.getLast?_cons_cons] at h
            exact h
    · simp only [splitNL, if_neg hc]
      cases hsnd : (splitNL rest).2 with
      | nil =>
        constructor
        · intro h
          simp at h
        · rintro (h | h)
          · cases h
          · exfalso
            cases rest with
            | nil =>
              simp at h
              exact hc h
            | cons d t =>
              rw [List.getLast?_cons_cons] at h
              have hmem : '\n' ∈ d :: t := List.mem_of_getLast?_eq_some h
              have hcount : (0 : Nat) < (d :: t).count '\n' := List.count_pos_iff.mpr hmem
              have hlen := splitNL_snd_length (d :: t)
              rw [hsnd] at hlen
              simp at hlen
              omega
      | cons q qs =>
        rw [List.getLast?_cons_cons]
        have hrest : rest ≠ [] := by
          intro h
          subst h
          simp [splitNL] at hsnd
        have ih' : (q :: qs).getLast? = some ([] : List Char) ↔
            (rest = [] ∨ rest.getLast? = some '\n') := by
          rw [← ih, hsnd, List.getLast?_cons_cons]
        rw [ih']
        constructor
        · rintro (h | h)
          · exact absurd h hrest
          · right
            cases rest with
            | nil => cases hrest rfl
            | cons d t => rw [List.getLast?_cons_cons]; exact h
        · rintro (h | h)
          · cases h
          · cases rest with
            | nil => cases hrest rfl
            | cons d t =>
              right
              rw [List.getLast?_cons_cons] at h
              exact h

theorem rustLines_length (s : List Char) :
    (rustLines s).length =
      s.count '\n' + 1 - (if s = [] ∨ s.getLast? = some '\n' then 1 else 0) := by
  unfold rustLines splitTerminatorNL
  rw [List.length_map]
  by_cases h : ((splitNL s).1 :: (splitNL s).2).getLast? = some ([] : List Char)
  · rw [if_pos h, if_pos ((splitNL_getLast?_eq_nil s).mp h)]
    simp [splitNL_snd_length]
  · rw [if_neg h, if_neg (fun hh => h ((splitNL_getLast?_eq_nil s).mpr hh))]
    simp [splitNL_snd_length]

theorem count_enter_flatMap (rest : List (List Char)) :
    (rest.flatMap fun t => [SenderEvent.enter, SenderEvent.str t]).count SenderEvent.enter
      = rest.length := by
  induction rest with
  | nil => rfl
  | cons t ts ih =>
    simp only [List.flatMap_cons, List.count_append, ih, List.length_cons]
    rw [show ([SenderEvent.enter, SenderEvent.str t]).count SenderEvent.enter = 1 from rfl]
    omega

theorem enterCount_replaceEvents (segs : List (List Char)) :
    (replaceEvents segs).count SenderEvent.enter = segs.length - 1 := by
  cases segs with
  | nil => rfl
  | cons s rest =>
    show (SenderEvent.str s :: rest.flatMap fun t => [SenderEvent.enter, SenderEvent.str t]).count
        SenderEvent.enter = (s :: rest).length - 1
    rw [List.count_cons_of_ne (fun h => SenderEvent.noConfusion h), count_enter_flatMap,
      List.length_cons]
    omega

theorem mem_replaceEvents_str {s : List Char} {segs : List (List Char)}
    (h : SenderEvent.str s ∈ replaceEvents segs) : s ∈ segs := by
  cases segs with
  | nil => cases h
  | cons a rest =>
    simp only [replaceEvents, List.mem_cons, List.mem_flatMap] at h
    rcases h with h | h
    · rw [SenderEvent.str.injEq] at h
      exact h ▸ List.mem_cons_self a rest
    · rcases h with ⟨t, ht, hmem⟩
      rcases hmem with h | h | h
      · cases h
      · rw [SenderEvent.str.injEq] at h
        exact List.mem_cons_of_mem a (h ▸ ht)
      · cases h

theorem mem_splitTerminatorNL {u : List Char} {s : List Char}
    (h : u ∈ splitTerminatorNL s) : u ∈ (splitNL s).1 :: (splitNL s).2 := by
  unfold splitTerminatorNL at h
  split at h
  · exact List.Sublist.mem h (List.dropLast_sublist _)
  · exact h

theorem stripTrailingCR_no_newline {u : List Char} (h : '\n' ∉ u) :
    '\n' ∉ stripTrailingCR u := by
  unfold stripTrailingCR
  split
  · exact fun hm => h (List.Sublist.mem hm (List.dropLast_sublist u))
  · exact h

theorem rustLines_no_newline {s : List Char} {l : List Char} (h : l ∈ rustLines s) :
    '\n' ∉ l := by
  rcases List.mem_map.mp h with ⟨u, hu, rfl⟩
  have hu' := mem_splitTerminatorNL hu
  rcases List.mem_cons.mp hu' with h1 | h2
  · exact stripTrailingCR_no_newline (h1 ▸ (splitNL_no_newline s).1)
  · exact stripTrailingCR_no_newline ((splitNL_no_newline s).2 u h2)

/-! ### Claims about the engine adapter -/

/-- C1, counterexample: the claim states that each line break of the
replacement — explicitly including a trailing one — is translated into exactly
one Enter key press.  For the replacement `"a\n"`, which contains one line
break, `on_match` issues zero Enter presses, because Rust `str::lines()`
treats a final line terminator as optional and drops it. -/
theorem c1_counterexample :
    ¬ enterCount (on_match ['x'] ['a', '\n']) = newlineCount ['a', '\n'] := by
  decide

/-- C1, amended: every line break of the replacement except a trailing final
line terminator is translated into exactly one Enter key press, and no raw
newline character ever appears in any injected text segment. -/
theorem c1_amended_enter_per_line_break (trigger replace : List Char) :
    enterCount (on_match trigger replace)
        = newlineCount replace - (if replace.getLast? = some '\n' then 1 else 0)
      ∧ ∀ s : List Char, SenderEvent.str s ∈ on_match trigger replace → '\n' ∉ s := by
  constructor
  · unfold enterCount on_match newlineCount
    rw [List.count_cons_of_ne (fun h => SenderEvent.noConfusion h), enterCount_replaceEvents,
      rustLines_length]
    by_cases h0 : replace = []
    · subst h0
      simp
    · by_cases h1 : replace.getLast? = some '\n'
      · rw [if_pos (Or.inr h1), if_pos h1]
        omega
      · rw [if_neg (fun hh => hh.elim h0 h1), if_neg h1]
        omega
  · intro s hs
    have hs' : SenderEvent.str s ∈ replaceEvents (rustLines replace) := by
      rcases List.mem_cons.mp hs with h | h
      · cases h
      · exact h
    exact rustLines_no_newline (mem_replaceEvents_str hs')

/-- C1, witness for the amended theorem at the concrete replacement
`"a\nb"`. -/
theorem c1_witness :
    (enterCount (on_match ['x'] ['a', '\n', 'b'])
        = newlineCount ['a', '\n', 'b']
          - (if (['a', '\n', 'b'] : List Char).getLast? = some '\n' then 1 else 0))
      ∧ '\n' ∉ (['a'] : List Char) :=
  ⟨(c1_amended_enter_per_line_break ['x'] ['a', '\n', 'b']).1,
   (c1_amended_enter_per_line_break ['x'] ['a', '\n', 'b']).2 ['a'] (by decide)⟩

/-- C2, evaluation at the failing input: the claim says a matched trigger of
length N characters causes exactly N deletion events.  The code passes
`m.trigger.len()` — the UTF-8 byte length — to `delete_string`, so the
one-character trigger `"è"` (two UTF-8 bytes) causes two deletion events. -/
theorem c2_code_eval_byte_length :
    deletionCount (on_match ['è'] ['x']) = 2
      ∧ (['è'] : List Char).length = 1
      ∧ on_match ['è'] ['x'] = [SenderEvent.deleteChars 2, SenderEvent.str ['x']] := by
  decide

/-- C10: with an empty replacement text, `on_match` issues only the deletion
of the trigger: no `send_string` call and no Enter press is issued, because
`"".lines()` is an empty iterator. -/
theorem c10_empty_replacement (trigger : List Char) :
    on_match trigger [] = [SenderEvent.deleteChars (utf8Len trigger)] := rfl

/-! ### Lemmas about the capture context embedding -/

theorem decodeLoop_ne_nil (l : List Nat) :
    ∀ st : Option Utf8State, st.isSome = true ∨ l ≠ [] → decodeLoop st l ≠ [] := by
  induction l with
  | nil =>
    intro st h
    rcases h with h | h
    · cases st with
      | none => simp at h
      | some s => simp [decodeLoop]
    · cases h rfl
  | cons b rest ih =>
    intro st h
    cases st with
    | none =>
      cases hl : leadByte b with
      | ascii c => simp [decodeLoop, hl]
      | start st2 =>
        rw [show decodeLoop none (b :: rest) = decodeLoop (some st2) rest from by
          simp [decodeLoop, hl]]
        exact ih (some st2) (Or.inl rfl)
      | invalid => simp [decodeLoop, hl]
    | some st =>
      by_cases hr : st.lower ≤ b ∧ b ≤ st.upper
      · by_cases hn : st.needed = 1
        · simp [decodeLoop, hr, hn]
        · rw [show decodeLoop (some st) (b :: rest)
              = decodeLoop
                  (some ⟨st.needed - 1, st.codepoint * 0x40 + (b - 0x80), 0x80, 0xBF⟩) rest from by
            simp [decodeLoop, hr, hn]]
          exact ih _ (Or.inl rfl)
      · simp [decodeLoop, hr]

theorem utf8DecodeLossy_ne_nil {l : List Nat} (h : l ≠ []) : utf8DecodeLossy l ≠ [] :=
  decodeLoop_ne_nil l none (Or.inr h)

/-! ### Claims about the capture context -/

/-- C4: for a modifier event (`is_modifier ≠ 0`), a native key code outside
the fixed set 133, 50, 64, 37, 22 causes no event to be emitted (and no
failure), while the codes inside the set emit exactly one
`Event::Key(Modifier(m))` with the corresponding logical modifier. -/
theorem c4_modifier_mapping (raw_buffer : List Nat) (im key_code : Int) (him : im ≠ 0) :
    (key_code ≠ 133 → key_code ≠ 50 → key_code ≠ 64 → key_code ≠ 37 → key_code ≠ 22 →
        keypress_callback raw_buffer im key_code = [])
      ∧ keypress_callback raw_buffer im 133 = [Event.Key (KeyEvent.Modifier KeyModifier.META)]
      ∧ keypress_callback raw_buffer im 50 = [Event.Key (KeyEvent.Modifier KeyModifier.SHIFT)]
      ∧ keypress_callback raw_buffer im 64 = [Event.Key (KeyEvent.Modifier KeyModifier.ALT)]
      ∧ keypress_callback raw_buffer im 37 = [Event.Key (KeyEvent.Modifier KeyModifier.CTRL)]
      ∧ keypress_callback raw_buffer im 22
          = [Event.Key (KeyEvent.Modifier KeyModifier.BACKSPACE)] := by
  refine ⟨?_, ?_, ?_, ?_, ?_, ?_⟩
  · intro h1 h2 h3 h4 h5
    simp [keypress_callback, him, modifierOfCode, h1, h2, h3, h4, h5]
  all_goals simp [keypress_callback, him, modifierOfCode]

/-- C4, witness: the out-of-set code 999 emits nothing, the in-set code 133
emits the Meta modifier event. -/
theorem c4_witness :
    keypress_callback [] 1 999 = []
      ∧ keypress_callback [] 1 133 = [Event.Key (KeyEvent.Modifier KeyModifier.META)] :=
  ⟨(c4_modifier_mapping [] 1 999 (by decide)).1 (by decide) (by decide) (by decide) (by decide)
      (by decide),
   (c4_modifier_mapping [] 1 133 (by decide)).2.1⟩

/-- C9: for a character event (`is_modifier = 0`), an empty buffer emits no
event; a non-empty buffer always decodes (lossily) to at least one character
and emits exactly one `Event::Key(Char(c))`, where `c` is the first character
of the decoding; invalid UTF-8 bytes become the replacement character rather
than being dropped (third conjunct, at the invalid buffer `[0xFF]`). -/
theorem c9_char_event (raw_buffer : List Nat) (key_code : Int) :
    (raw_buffer = [] → keypress_callback raw_buffer 0 key_code = [])
      ∧ (raw_buffer ≠ [] →
          ∃ c rest, utf8DecodeLossy raw_buffer = c :: rest
            ∧ keypress_callback raw_buffer 0 key_code = [Event.Key (KeyEvent.Char c)])
      ∧ keypress_callback [0xFF] 0 key_code = [Event.Key (KeyEvent.Char repl)] := by
  refine ⟨?_, ?_, ?_⟩
  · intro h
    subst h
    rfl
  · intro h
    cases hd : utf8DecodeLossy raw_buffer with
    | nil => exact absurd hd (utf8DecodeLossy_ne_nil h)
    | cons c rest =>
      refine ⟨c, rest, rfl, ?_⟩
      simp [keypress_callback, hd]
  · rfl

/-- C9, witness: the one-byte buffer `[0x61]` decodes to at least one
character and emits exactly one character event. -/
theorem c9_witness :
    ∃ c rest, utf8DecodeLossy [0x61] = c :: rest
      ∧ keypress_callback [0x61] 0 5 = [Event.Key (KeyEvent.Char c)] :=
  (c9_char_event [0x61] 5).2.1 (by decide)

/-! ### Claims about the injection library -/

/-- C5: the default inter-event delay of `InjectionOptions::default` is
OS-specific: 0 on Windows, 2 milliseconds (a few milliseconds) on macOS and
0 on Linux. -/
theorem c5_default_delay :
    default_delay OS.windows = Except.ok 0
      ∧ default_delay OS.macos = Except.ok 2
      ∧ default_delay OS.linux = Except.ok 0
      ∧ injectionOptionsDefault OS.windows = Except.ok (InjectionOptions.mk 0 false)
      ∧ injectionOptionsDefault OS.macos = Except.ok (InjectionOptions.mk 2 false)
      ∧ injectionOptionsDefault OS.linux = Except.ok (InjectionOptions.mk 0 false) :=
  ⟨rfl, rfl, rfl, rfl, rfl, rfl⟩

/-- C3: the dispatcher decision table.  Windows and macOS select their native
backend; Linux with the Wayland feature selects EVDEV regardless of
`use_evdev`; Linux/X11 selects X11 when `use_evdev` is false and EVDEV when it
is true (each shown with the selected backend constructor succeeding). -/
theorem c3_dispatch_table (opts : InjectorCreationOptions) (w e x : Bool) :
    get_injector OS.windows w opts e x = Except.ok Backend.win32
      ∧ get_injector OS.macos w opts e x = Except.ok Backend.mac
      ∧ get_injector OS.linux true opts true x = Except.ok Backend.evdev
      ∧ (opts.use_evdev = false →
          get_injector OS.linux false opts e true = Except.ok Backend.x11)
      ∧ (opts.use_evdev = true →
          get_injector OS.linux false opts true x = Except.ok Backend.evdev) := by
  refine ⟨rfl, rfl, by simp [get_injector], ?_, ?_⟩
  · intro h
    simp [get_injector, h]
  · intro h
    simp [get_injector, h]

/-- C3, witness: Linux/X11 with default options (no `use_evdev`) selects X11;
with `use_evdev` it selects EVDEV. -/
theorem c3_witness :
    get_injector OS.linux false injectorCreationOptionsDefault true true
        = Except.ok Backend.x11
      ∧ get_injector OS.linux false (InjectorCreationOptions.mk true none none none) true true
          = Except.ok Backend.evdev :=
  ⟨(c3_dispatch_table injectorCreationOptionsDefault true true true).2.2.2.1 rfl,
   (c3_dispatch_table (InjectorCreationOptions.mk true none none none) true true true).2.2.2.2
     rfl⟩

/-- C6: on an unsupported OS construction fails immediately (`get_injector`
does not exist there, and `InjectionOptions::default` panics); and whenever
the selected backend constructor fails, the dispatcher surfaces the error and
never returns a partial or fallback injector. -/
theorem c6_unsupported_fails (opts : InjectorCreationOptions) (w e x : Bool) :
    exceptIsError (get_injector OS.other w opts e x) = true
      ∧ exceptIsError (injectionOptionsDefault OS.other) = true
      ∧ exceptIsError (get_injector OS.linux true opts false x) = true
      ∧ (opts.use_evdev = true →
          exceptIsError (get_injector OS.linux false opts false x) = true)
      ∧ (opts.use_evdev = false →
          exceptIsError (get_injector OS.linux false opts e false) = true) := by
  refine ⟨rfl, rfl, by simp [get_injector, exceptIsError], ?_, ?_⟩
  · intro h
    simp [get_injector, exceptIsError, h]
  · intro h
    simp [get_injector, exceptIsError, h]

/-- C6, witness: on Linux/X11 with `use_evdev`, a failing EVDEV constructor
makes the dispatcher fail even though the X11 constructor would succeed: no
fallback injector is returned. -/
theorem c6_witness :
    exceptIsError
        (get_injector OS.linux false (InjectorCreationOptions.mk true none none none)
          false true) = true :=
  (c6_unsupported_fails (InjectorCreationOptions.mk true none none none) true true true).2.2.2.1
    rfl

/-! ### Claims about the spec-modelled parts -/

/-- C7: `send_key_combination` presses the keys in list order without
releasing, then releases them in exact reverse order: the first half of the
trace is the presses in list order, the second half the releases in reversed
list order (shown together with the concrete chord Ctrl, Alt, c). -/
theorem c7_key_combination_order (keys : List Key) :
    (send_key_combination keys).take keys.length = keys.map KeyAction.press
      ∧ (send_key_combination keys).drop keys.length = (keys.map KeyAction.release).reverse
      ∧ send_key_combination [Key.Ctrl, Key.Alt, Key.KeyChar 'c']
          = [KeyAction.press Key.Ctrl, KeyAction.press Key.Alt,
             KeyAction.press (Key.KeyChar 'c'), KeyAction.release (Key.KeyChar 'c'),
             KeyAction.release Key.Alt, KeyAction.release Key.Ctrl] := by
  refine ⟨?_, ?_, rfl⟩
  · rw [send_key_combination, List.take_left' (by rw [List.length_map])]
  · rw [send_key_combination, List.drop_left' (by rw [List.length_map]), List.map_reverse]

/-! Auxiliary lemmas for the resolver invariant. -/

theorem probeList_combo_length {keyCodes mods : List Nat} {maxLen : Nat}
    {p : Nat × List Nat} (h : p ∈ probeList keyCodes mods maxLen) :
    p.2.length ≤ maxLen := by
  simp only [probeList, List.mem_flatMap, List.mem_map, List.mem_range] at h
  obtain ⟨i, hi, k, hk, combo, hcombo, hp⟩ := h
  have hlen := (List.mem_sublistsLen.mp hcombo).2
  rw [← hp]
  simpa [hlen] using Nat.lt_succ_iff.mp hi

theorem buildTable_entries_from (layout : Nat → List Nat → Option Nat)
    (ps : List (Nat × List Nat)) :
    ∀ acc : List (Nat × Nat × List Nat),
      ∀ e ∈ ps.foldl (tableStep layout) acc, e ∈ acc ∨ ∃ p ∈ ps, e.2 = p := by
  induction ps with
  | nil =>
    intro acc e he
    exact Or.inl he
  | cons p ps ih =>
    intro acc e he
    rw [List.foldl_cons] at he
    rcases ih (tableStep layout acc p) e he with h | h
    · unfold tableStep at h
      cases hl : layout p.1 p.2 with
      | none =>
        rw [hl] at h
        exact Or.inl h
      | some sym =>
        rw [hl] at h
        have h' : e ∈ (if (acc.find? fun e => e.1 == sym).isSome then acc
            else acc ++ [(sym, p.1, p.2)]) := h
        by_cases hf : (acc.find? fun e => e.1 == sym).isSome
        · rw [if_pos hf] at h'
          exact Or.inl h'
        · rw [if_neg hf] at h'
          rcases List.mem_append.mp h' with h2 | h2
          · exact Or.inl h2
          · right
            refine ⟨p, List.mem_cons_self _ _, ?_⟩
            rw [List.mem_singleton.mp h2]
    · rcases h with ⟨q, hq, he2⟩
      exact Or.inr ⟨q, List.mem_cons_of_mem _ hq, he2⟩

/-- C8: every entry of the `KeysymResolutionTable` built by the EVDEV
resolver uses a modifier subset whose length is at most the configured
maximum combination length (`evdev_max_modifier_combination_len`, or the
default bound 2 when unspecified). -/
theorem c8_resolver_max_len (layout : Nat → List Nat → Option Nat)
    (keyCodes mods : List Nat) (opts : InjectorCreationOptions) :
    ∀ e ∈ buildTable layout keyCodes mods
        (resolveMaxLen opts.evdev_max_modifier_combination_len),
      e.2.2.length ≤ resolveMaxLen opts.evdev_max_modifier_combination_len := by
  intro e he
  rcases buildTable_entries_from layout
      (probeList keyCodes mods (resolveMaxLen opts.evdev_max_modifier_combination_len))
      [] e he with h | h
  · cases h
  · rcases h with ⟨p, hp, he2⟩
    have hlen := probeList_combo_length hp
    rw [show e.2.2 = p.2 from by rw [he2]]
    exact hlen

/-- C8, witness: in a concrete resolver run with two keys, two modifiers and
unspecified maximum, the recorded entry for symbol 1000 satisfies the
bound. -/
theorem c8_witness :
    ((1000 : Nat), (10 : Nat), ([] : List Nat)).2.2.length
      ≤ resolveMaxLen injectorCreationOptionsDefault.evdev_max_modifier_combination_len :=
  c8_resolver_max_len (fun k combo => some (k * 100 + combo.sum)) [10, 11] [1, 2]
    injectorCreationOptionsDefault (1000, 10, []) (by decide)

end Espanso
